import Mathlib

/-!
Verification of the stochastic discretization aggregator of
`tensorflow_federated/python/aggregators/stochastic_discretization.py`,
exercised by `stochastic_discretization_test.py`.

Real numbers in the source are modelled by exact rationals. The Bernoulli
draw used by stochastic rounding is made an explicit `Bool` input, so that
statements "with probability 1" become universal quantification over the
draw, and expectations become the explicit two-point average weighted by
the fractional part.
-/

namespace StochasticDiscretization

/-- Modelled from the spec: the stochastic rounding primitive (§4.2) of the
missing `stochastic_discretization.py`. Let `f = v - ⌊v⌋`; the primitive
returns `⌊v⌋` with probability `1 - f` and `⌈v⌉` with probability `f`. The
Bernoulli(f) draw is the explicit argument: `draw = true` is the
probability-`f` branch rounding up to `⌈v⌉`, `draw = false` rounds down to
`⌊v⌋`. -/
def stochastic_round (v : ℚ) (draw : Bool) : ℤ :=
  if draw then ⌈v⌉ else ⌊v⌋

/-- Modelled from the spec: the elementwise encoding transform (§4.1),
`encode(v) = stochastic_round(v / step_size)`. -/
def encode (step_size : ℚ) (v : ℚ) (draw : Bool) : ℤ :=
  stochastic_round (v / step_size) draw

/-- Modelled from the spec: the elementwise decoding transform (§4.1),
`decode(e) = e * step_size` (the cast to the original leaf kind is modelled
at the structured level). -/
def decode (step_size : ℚ) (e : ℤ) : ℚ :=
  (e : ℚ) * step_size

/-- The expected value of a Bool-indexed rational outcome under a
Bernoulli(`p`) draw: outcome `g true` happens with probability `p` and
`g false` with probability `1 - p`. -/
def bernoulliExpectation (p : ℚ) (g : Bool → ℚ) : ℚ :=
  p * g true + (1 - p) * g false

/-- The two candidate integers bracket `v`: for either draw the output of
`stochastic_round` is within distance 1 of its input. -/
theorem abs_stochastic_round_sub_le_one (v : ℚ) (d : Bool) :
    |(stochastic_round v d : ℚ) - v| ≤ 1 := by
  cases d with
  | false =>
    have hd : stochastic_round v false = ⌊v⌋ := rfl
    rw [hd, abs_sub_le_iff]
    constructor
    · linarith [Int.floor_le v]
    · linarith [Int.lt_floor_add_one v]
  | true =>
    have hd : stochastic_round v true = ⌈v⌉ := rfl
    rw [hd, abs_sub_le_iff]
    constructor
    · linarith [Int.ceil_lt_add_one v]
    · linarith [Int.le_ceil v]

/-- Rounding an exact integer is deterministic: both draws return it. -/
theorem stochastic_round_intCast (k : ℤ) (d : Bool) :
    stochastic_round (k : ℚ) d = k := by
  cases d <;> simp [stochastic_round]

/-- When `v / s` is exactly the integer `k`, the encoding is independent of
the random draw and equal to `k`. -/
theorem encode_exact (s v : ℚ) (k : ℤ) (hk : v / s = (k : ℚ)) (d : Bool) :
    encode s v d = k := by
  rw [encode, hk, stochastic_round_intCast]

/-- C1: for every real element `v`, every step size `s > 0` and every
realization of the random rounding draw, the round trip
`decode(encode(v))` satisfies `|decode(encode(v)) - v| ≤ s`. -/
theorem round_trip_error_le (v s : ℚ) (d : Bool) (hs : 0 < s) :
    |decode s (encode s v d) - v| ≤ s := by
  have hsne : s ≠ 0 := ne_of_gt hs
  have key : decode s (encode s v d) - v =
      ((stochastic_round (v / s) d : ℚ) - v / s) * s := by
    rw [decode, encode, sub_mul, div_mul_cancel₀ v hsne]
  rw [key, abs_mul, abs_of_pos hs]
  calc |(stochastic_round (v / s) d : ℚ) - v / s| * s
      ≤ 1 * s := mul_le_mul_of_nonneg_right
        (abs_stochastic_round_sub_le_one (v / s) d) (le_of_lt hs)
    _ = s := one_mul s

/-- Witness for C1 at `v = 1/3`, `s = 1/2`, `draw = false`. -/
theorem round_trip_error_le_witness :
    0 < (1/2 : ℚ) ∧
      |decode (1/2) (encode (1/2) (1/3) false) - 1/3| ≤ (1/2 : ℚ) :=
  ⟨by norm_num, round_trip_error_le (1/3) (1/2) false (by norm_num)⟩

/-- C2: with `f = v - ⌊v⌋` the fractional part, `stochastic_round v`
returns `⌊v⌋` on the probability-`(1-f)` branch and `⌈v⌉` on the
probability-`f` branch, and its expected value under the Bernoulli(`f`)
draw is exactly `v` (unbiased rounding):
`E[stochastic_round(v)] = (1-f)*⌊v⌋ + f*⌈v⌉ = v`. -/
theorem stochastic_round_unbiased (v : ℚ) :
    stochastic_round v false = ⌊v⌋ ∧
    stochastic_round v true = ⌈v⌉ ∧
    bernoulliExpectation (Int.fract v)
      (fun d => (stochastic_round v d : ℚ)) = v := by
  refine ⟨rfl, rfl, ?_⟩
  have htrue : stochastic_round v true = ⌈v⌉ := rfl
  have hfalse : stochastic_round v false = ⌊v⌋ := rfl
  rw [bernoulliExpectation, htrue, hfalse, Int.fract]
  by_cases h : (⌊v⌋ : ℚ) = v
  · have hceil : ⌈v⌉ = ⌊v⌋ := by
      conv_lhs => rw [← h]
      exact Int.ceil_intCast ⌊v⌋
    have hc : (⌈v⌉ : ℚ) = (⌊v⌋ : ℚ) := by exact_mod_cast hceil
    rw [hc]
    linear_combination h
  · have hlt : (⌊v⌋ : ℚ) < v := lt_of_le_of_ne (Int.floor_le v) h
    have hceil : ⌈v⌉ = ⌊v⌋ + 1 := by
      have h1 : ⌈v⌉ ≤ ⌊v⌋ + 1 := by
        rw [Int.ceil_le]
        push_cast
        linarith [Int.lt_floor_add_one v]
      have h2 : ⌊v⌋ < ⌈v⌉ := by
        rw [Int.lt_ceil]
        exact hlt
      omega
    have hc : (⌈v⌉ : ℚ) = (⌊v⌋ : ℚ) + 1 := by exact_mod_cast hceil
    rw [hc]
    ring

/-- C3 counterexample: the integral input `x = 1` with step size `s = 2/5`
has `x / s = 5/2`, which is not an integer, so the two draws give the two
different adjacent integers 3 and 2 (variance across trials), the
down-rounding draw disagrees with `round(x/s) = 3`, and the round trip
returns `4/5 ≠ 1`. -/
theorem scaling_identity_counterexample :
    encode (2/5) ((1 : ℤ) : ℚ) true = 3 ∧
    encode (2/5) ((1 : ℤ) : ℚ) false = 2 ∧
    encode (2/5) ((1 : ℤ) : ℚ) true ≠ encode (2/5) ((1 : ℤ) : ℚ) false ∧
    round (((1 : ℤ) : ℚ) / (2/5)) = 3 ∧
    decode (2/5) (encode (2/5) ((1 : ℤ) : ℚ) false) ≠ ((1 : ℤ) : ℚ) := by
  have harg : ((1 : ℤ) : ℚ) / (2/5) = 5/2 := by norm_num
  have hfloor : ⌊(5/2 : ℚ)⌋ = 2 := by
    rw [Int.floor_eq_iff]
    constructor <;> norm_num
  have hceil : ⌈(5/2 : ℚ)⌉ = 3 := by
    rw [Int.ceil_eq_iff]
    constructor <;> norm_num
  have he_true : encode (2/5) ((1 : ℤ) : ℚ) true = 3 := by
    show ⌈((1 : ℤ) : ℚ) / (2/5)⌉ = 3
    rw [harg, hceil]
  have he_false : encode (2/5) ((1 : ℤ) : ℚ) false = 2 := by
    show ⌊((1 : ℤ) : ℚ) / (2/5)⌋ = 2
    rw [harg, hfloor]
  refine ⟨he_true, he_false, by rw [he_true, he_false]; norm_num, ?_, ?_⟩
  · rw [harg, round_eq, show (5/2 + 1/2 : ℚ) = ((3 : ℤ) : ℚ) by norm_num,
      Int.floor_intCast]
  · rw [he_false, decode]
    norm_num

/-- C3 (amended): for an integral input `x` and a step size `s ≠ 0` such
that `x / s` is exactly an integer `k`, the encoding equals `round(x / s)`
exactly, is deterministic (identical for every pair of draws), and
`decode(encode(x)) = x` exactly. -/
theorem scaling_identity_exact (x k : ℤ) (s : ℚ) (hs : s ≠ 0)
    (hk : (x : ℚ) / s = (k : ℚ)) (d d2 : Bool) :
    encode s (x : ℚ) d = round ((x : ℚ) / s) ∧
    encode s (x : ℚ) d = encode s (x : ℚ) d2 ∧
    decode s (encode s (x : ℚ) d) = (x : ℚ) := by
  have he : encode s (x : ℚ) d = k := encode_exact s _ k hk d
  have he2 : encode s (x : ℚ) d2 = k := encode_exact s _ k hk d2
  have hx : (x : ℚ) = (k : ℚ) * s := (div_eq_iff hs).mp hk
  refine ⟨?_, by rw [he, he2], ?_⟩
  · rw [he, hk, round_intCast]
  · rw [he, decode, ← hx]

/-- Witness for the amended C3 at `x = 4`, `s = 1/2`, `k = 8`. -/
theorem scaling_identity_exact_witness :
    ((1 : ℚ)/2 ≠ 0) ∧ (((4 : ℤ) : ℚ) / (1/2) = ((8 : ℤ) : ℚ)) ∧
    (encode (1/2) ((4 : ℤ) : ℚ) true = round (((4 : ℤ) : ℚ) / (1/2)) ∧
     encode (1/2) ((4 : ℤ) : ℚ) true = encode (1/2) ((4 : ℤ) : ℚ) false ∧
     decode (1/2) (encode (1/2) ((4 : ℤ) : ℚ) true) = ((4 : ℤ) : ℚ)) :=
  ⟨by norm_num, by norm_num,
    scaling_identity_exact 4 8 (1/2) (by norm_num) (by norm_num) true false⟩

/-- The element kinds appearing in the tests: the three supported
floating-point kinds and the rejected integer/boolean/string kinds. -/
inductive DType where
  | float16
  | float32
  | float64
  | int32
  | int64
  | bool
  | string
deriving DecidableEq

/-- Modelled from the spec: the supported leaf element kinds (§3) are
exactly the floating-point kinds. -/
def DType.isFloat : DType → Bool
  | .float16 => true
  | .float32 => true
  | .float64 => true
  | _ => false

/-- A recursive description of a structured value type (§3): a tensor leaf
(element kind and static shape), a composite of child types, a
dynamic-length sequence, or a function type. -/
inductive ValueType where
  | tensor (dtype : DType) (shape : List Nat)
  | struct (elems : List ValueType)
  | sequence (elem : ValueType)
  | func (dom ran : ValueType)

mutual

/-- Modelled from the spec: the construction-time validation (§4.3) of
`StochasticDiscretizationFactory.create`, missing from `src/`. A type is
accepted iff every leaf is floating point and no sequence or function type
occurs. -/
def isValidValueType : ValueType → Bool
  | .tensor d _ => d.isFloat
  | .struct es => allValidList es
  | .sequence _ => false
  | .func _ _ => false

/-- All member types of a composite are valid. -/
def allValidList : List ValueType → Bool
  | [] => true
  | t :: ts => isValidValueType t && allValidList ts

end

mutual

/-- The derived encoded type, translated from the test's expectation
(`stochastic_discretization_test.py` lines 85-87): every tensor leaf is
re-typed to a 32-bit integer leaf of the same shape. -/
def quantizeType : ValueType → ValueType
  | .tensor _ sh => .tensor .int32 sh
  | .struct es => .struct (quantizeTypeList es)
  | .sequence e => .sequence (quantizeType e)
  | .func a b => .func (quantizeType a) (quantizeType b)

/-- `quantizeType` mapped over the members of a composite. -/
def quantizeTypeList : List ValueType → List ValueType
  | [] => []
  | t :: ts => quantizeType t :: quantizeTypeList ts

end

/-- The process object produced by a successful `create`: the accepted
value type, the derived encoded type and the configured step size. -/
structure AggProcess where
  value_type : ValueType
  encoded_type : ValueType
  step_size : ℚ

/-- Modelled from the spec: `create(value_type)` (§4.3, §7) validates the
value type and the positivity of the step size, and either returns the
process object or fails with a type error, in which case no process object
is produced. -/
def create (step_size : ℚ) (vt : ValueType) : Except String AggProcess :=
  if 0 < step_size ∧ isValidValueType vt = true then
    .ok { value_type := vt, encoded_type := quantizeType vt,
          step_size := step_size }
  else
    .error "TypeError"

/-- A value type contains a bad component (in the sense of claim C6): a
non-floating-point leaf, or a sequence or function type, at any nesting
depth. -/
inductive ContainsBadLeaf : ValueType → Prop where
  | tensor_bad (d : DType) (sh : List Nat) :
      d.isFloat = false → ContainsBadLeaf (.tensor d sh)
  | seq (e : ValueType) : ContainsBadLeaf (.sequence e)
  | func (a b : ValueType) : ContainsBadLeaf (.func a b)
  | struct_mem (e : ValueType) (es : List ValueType) :
      e ∈ es → ContainsBadLeaf e → ContainsBadLeaf (.struct es)

/-- A type containing a bad component anywhere fails validation. -/
theorem contains_bad_not_valid {vt : ValueType} (h : ContainsBadLeaf vt) :
    isValidValueType vt = false := by
  induction h with
  | tensor_bad d sh hd => simpa [isValidValueType] using hd
  | seq e => simp [isValidValueType]
  | func a b => simp [isValidValueType]
  | struct_mem e es hmem hbad ih =>
    have hlist : ∀ ts : List ValueType, e ∈ ts → allValidList ts = false := by
      intro ts
      induction ts with
      | nil => intro hmem2; cases hmem2
      | cons t ts iht =>
        intro hmem2
        rcases List.mem_cons.mp hmem2 with he | he
        · subst he
          simp [allValidList, ih]
        · simp [allValidList, iht he]
    simpa [isValidValueType] using hlist es hmem

/-- C6: for every value type containing a non-floating-point leaf or a
sequence or function type at any nesting depth, `create` fails with a type
error and no process object is produced, whatever the step size. -/
theorem create_rejects_bad_type (s : ℚ) (vt : ValueType)
    (h : ContainsBadLeaf vt) : create s vt = .error "TypeError" := by
  have hv : isValidValueType vt = false := contains_bad_not_valid h
  simp [create, hv]

/-- Witness for C6 at a sequence leaf nested two composites deep. -/
theorem create_rejects_bad_type_witness :
    create (1/10)
        (.struct [.struct [.sequence (.tensor .int32 [])]]) =
      .error "TypeError" :=
  create_rejects_bad_type (1/10) _
    (ContainsBadLeaf.struct_mem
      (ValueType.struct [ValueType.sequence (ValueType.tensor DType.int32 [])])
      [ValueType.struct [ValueType.sequence (ValueType.tensor DType.int32 [])]]
      (List.mem_singleton_self _)
      (ContainsBadLeaf.struct_mem
        (ValueType.sequence (ValueType.tensor DType.int32 []))
        [ValueType.sequence (ValueType.tensor DType.int32 [])]
        (List.mem_singleton_self _)
        (ContainsBadLeaf.seq _)))

/-- A structured numeric value conforming to a `ValueType`: nested
composites of tensor leaves, each leaf holding its element kind and its
elements flattened in row-major order. -/
inductive StructValue where
  | tensor (dtype : DType) (data : List ℚ)
  | struct (elems : List StructValue)

/-- An encoded value (§3): structurally isomorphic to the value it encodes
but with integer elements, each leaf tagged with its element kind. -/
inductive EncValue where
  | tensor (dtype : DType) (data : List ℤ)
  | struct (elems : List EncValue)

/-- The fixed output element kind of the encoder, the `OUTPUT_TF_TYPE`
constant of the missing module: the test asserts both that encoded leaves
carry exactly this kind (lines 223-228) and that the encoded type re-types
every leaf to `np.int32` (lines 85-87). -/
def OUTPUT_TF_TYPE : DType := DType.int32

/-- A realization of the per-element Bernoulli draws consumed by one
encoding pass: the leaf reached through the child positions `path` uses,
for its element `i`, the draw `d path i`. Independence per element and per
call is expressed by quantifying theorems over all realizations. -/
def Draws : Type := List Nat → Nat → Bool

/-- `encode` applied elementwise over a flattened leaf, element `i`
consuming its own draw `f i`. -/
def encodeData (s : ℚ) (f : Nat → Bool) (data : List ℚ) : List ℤ :=
  List.zipWith (fun i v => encode s v (f i)) (List.range data.length) data

mutual

/-- Modelled from the spec: `_discretize_struct` of the missing module
(§4.1) — the structured encode transform, applying
`stochastic_round(v / step_size)` independently per element over every
leaf, preserving the nesting shape and re-typing every leaf to
`OUTPUT_TF_TYPE`. -/
def _discretize_struct (s : ℚ) (draws : Draws) : StructValue → EncValue
  | .tensor _ data =>
      .tensor OUTPUT_TF_TYPE (encodeData s (fun i => draws [] i) data)
  | .struct elems => .struct (discretizeList s draws 0 elems)

/-- `_discretize_struct` over the children of a composite, child `i`
receiving the draws of path `i :: path`. -/
def discretizeList (s : ℚ) (draws : Draws) (i : Nat) :
    List StructValue → List EncValue
  | [] => []
  | v :: vs =>
      _discretize_struct s (fun p k => draws (i :: p) k) v ::
        discretizeList s draws (i + 1) vs

end

/-- The element kind of a leaf type (defaulting to float32 off leaves). -/
def leafKind : ValueType → DType
  | .tensor d _ => d
  | _ => DType.float32

/-- The child types of a composite type. -/
def childTypes : ValueType → List ValueType
  | .struct ts => ts
  | _ => []

mutual

/-- Modelled from the spec: `_undiscretize_struct` of the missing module
(§4.1) — the structured decode transform,
`decode(e) = cast(e * step_size, original_leaf_kind)` elementwise, the
original leaf kinds supplied as a mirrored type structure. -/
def _undiscretize_struct (s : ℚ) : EncValue → ValueType → StructValue
  | .tensor _ data, t => .tensor (leafKind t) (data.map fun e => decode s e)
  | .struct es, t => .struct (undiscretizeList s es (childTypes t))

/-- `_undiscretize_struct` over the children of a composite. -/
def undiscretizeList (s : ℚ) :
    List EncValue → List ValueType → List StructValue
  | [], _ => []
  | e :: es, ts =>
      _undiscretize_struct s e (ts.headD (.tensor DType.float32 [])) ::
        undiscretizeList s es ts.tail

end

mutual

/-- Modelled from the spec: the inner summation (§6) delegated to the
injected sum aggregator of the tests — the elementwise sum of two encoded
values of the same shape. -/
def addEnc : EncValue → EncValue → EncValue
  | .tensor d a, .tensor _ b => .tensor d (List.zipWith (· + ·) a b)
  | .struct as, .struct bs => .struct (addEncList as bs)
  | a, _ => a

/-- `addEnc` zipped over the children of two composites. -/
def addEncList : List EncValue → List EncValue → List EncValue
  | a :: as, b :: bs => addEnc a b :: addEncList as bs
  | _, _ => []

end

/-- The inner process's combination of all contributors' encoded values:
their elementwise sum. -/
def sumEnc : List EncValue → EncValue
  | [] => .struct []
  | e :: es => es.foldl addEnc e

mutual

/-- Modelled from the spec: the per-element squared errors between a value
and its round trip (§4.4), flattened over all leaves. -/
def sqDiffs : StructValue → StructValue → List ℚ
  | .tensor _ a, .tensor _ b => List.zipWith (fun x y => (x - y) ^ 2) a b
  | .struct as, .struct bs => sqDiffsList as bs
  | _, _ => []

/-- `sqDiffs` concatenated over the children of two composites. -/
def sqDiffsList : List StructValue → List StructValue → List ℚ
  | a :: as, b :: bs => sqDiffs a b ++ sqDiffsList as bs
  | _, _ => []

end

/-- The mean of a list of rationals, `0` on the empty list (a zero-size
structure contributes zero distortion, not an error). -/
def meanList (l : List ℚ) : ℚ :=
  if l.length = 0 then 0 else l.sum / (l.length : ℚ)

/-- Modelled from the spec: the per-contributor distortion signal (§4.4) —
the mean squared per-element error between the original value and its
round trip. -/
def clientDistortion (s : ℚ) (vt : ValueType) (d : Draws)
    (v : StructValue) : ℚ :=
  meanList (sqDiffs v (_undiscretize_struct s (_discretize_struct s d v) vt))

/-- `ServerState` (§3): the configured step size and the inner process
state; the sum-with-measurement inner aggregator of the tests has the unit
state (the test expects `('inner_agg_process', ())`, lines 91-93). -/
structure ServerState where
  step_size : ℚ
  inner_agg_process : Unit
deriving DecidableEq

/-- One measurement component value: an encoded value or a scalar real. -/
inductive MeasurementValue where
  | encoded (e : EncValue)
  | scalar (q : ℚ)

/-- `MeasuredOutput` (§3): the new state, the decoded server result, and
the named measurement components. -/
structure MeasuredOutput where
  state : ServerState
  result : StructValue
  measurements : List (String × MeasurementValue)

/-- Modelled from the spec: `initialize()` (§4.3) returns
`{step_size: configured value, inner_process_state: inner.initialize()}`;
the inner sum process contributes the unit state. -/
def initState (step_size : ℚ) : ServerState :=
  { step_size := step_size, inner_agg_process := () }

/-- Modelled from the spec: one aggregation round `next(state, values)`
(§4.3) over the full list of contributor values — encode every
contributor's value with `state.step_size`, delegate the sum to the inner
process, decode the sum, aggregate the per-contributor distortions with
the unweighted-mean process, and return the new state and the named
measurements. The measurement names are the ones the test in `src/`
asserts (lines 104-110 and 209-211). -/
def next (vt : ValueType) (state : ServerState) (values : List StructValue)
    (draws : List Draws) : MeasuredOutput :=
  let s := state.step_size
  let encoded := List.zipWith (fun v d => _discretize_struct s d v) values draws
  let inner_result := sumEnc encoded
  let result := _undiscretize_struct s inner_result vt
  let client_distortions :=
    List.zipWith (fun v d => clientDistortion s vt d v) values draws
  { state := { step_size := s, inner_agg_process := state.inner_agg_process },
    result := result,
    measurements :=
      [("stochastic_discretization", .encoded inner_result),
       ("distortion", .scalar (meanList client_distortions))] }

/-- A sequence of rounds with the state threaded linearly: each round's
input state is the state returned by the previous round. -/
def runRounds (vt : ValueType) (st : ServerState) :
    List (List StructValue × List Draws) → ServerState
  | [] => st
  | (vs, ds) :: rest => runRounds vt (next vt st vs ds).state rest

/-- The scalar float32 value type of the execution test. -/
def vtScalar : ValueType := .tensor DType.float32 []

/-- The three contributors' scalar values `1.0, 2.0, 3.0` of the execution
test. -/
def testClientValues : List StructValue :=
  [.tensor DType.float32 [1], .tensor DType.float32 [2],
   .tensor DType.float32 [3]]

/-- The state produced once by `initialize()` in the execution test
(`state = process.initialize()`, line 203), with the test's
`step_size = 0.125`. -/
def testState0 : ServerState := initState (1/8)

/-- The loop of `test_discretize_impl` (src lines 213-218): the local
`state` is bound once and `process.next(state, client_values)` is invoked
on each of the iterations without ever rebinding `state`; each list entry
records the state supplied to that call together with the call's output.
The per-round draw realizations are a parameter. -/
def testRun (ds : Nat → List Draws) :
    Nat → ServerState → List (ServerState × MeasuredOutput)
  | 0, _ => []
  | n + 1, state =>
      (state, next vtScalar state testClientValues (ds n)) ::
        testRun ds n state

/-- A concrete draw realization: every element of every contributor rounds
down in every round. -/
def testDrawsConst : Nat → List Draws :=
  fun _ => [fun _ _ => false, fun _ _ => false, fun _ _ => false]

/-- C7: the `step_size` component of the state returned by `next` is
identical to the `step_size` component of the input state, and it never
changes across any sequence of rounds threaded through `runRounds`. -/
theorem step_size_invariant (vt : ValueType) (st : ServerState)
    (rounds : List (List StructValue × List Draws)) :
    (runRounds vt st rounds).step_size = st.step_size ∧
    ∀ (values : List StructValue) (draws : List Draws),
      (next vt st values draws).state.step_size = st.step_size := by
  constructor
  · induction rounds generalizing st with
    | nil => rfl
    | cons r rest ih =>
      obtain ⟨vs, ds⟩ := r
      rw [runRounds, ih]
      rfl
  · intro values draws
    rfl

/-- C4: when the three contributors submit the scalar float32 values
`1.0, 2.0, 3.0` to the aggregator with `step_size = 0.125`, one round of
`next` returns the aggregated result `6.0`, the quantized-result
measurement `48 = 6.0 / 0.125`, and the distortion measurement `0.0`, for
every realization of the rounding draws (exact multiples of the step size
round trip exactly). -/
theorem discretize_impl_scalar (d1 d2 d3 : Draws) :
    (next vtScalar testState0 testClientValues [d1, d2, d3]).result
        = .tensor DType.float32 [6] ∧
    (next vtScalar testState0 testClientValues [d1, d2, d3]).measurements
        = [("stochastic_discretization",
            MeasurementValue.encoded (.tensor DType.int32 [48])),
           ("distortion", MeasurementValue.scalar 0)] := by
  have h1 : ∀ d : Bool, encode (8 : ℚ)⁻¹ 1 d = 8 :=
    fun d => encode_exact (8 : ℚ)⁻¹ 1 8 (by norm_num) d
  have h2 : ∀ d : Bool, encode (8 : ℚ)⁻¹ 2 d = 16 :=
    fun d => encode_exact (8 : ℚ)⁻¹ 2 16 (by norm_num) d
  have h3 : ∀ d : Bool, encode (8 : ℚ)⁻¹ 3 d = 24 :=
    fun d => encode_exact (8 : ℚ)⁻¹ 3 24 (by norm_num) d
  constructor <;>
    simp [next, vtScalar, testState0, testClientValues, initState,
      _discretize_struct, discretizeList, encodeData, _undiscretize_struct,
      undiscretizeList, sumEnc, addEnc, sqDiffs, meanList, leafKind,
      childTypes, clientDistortion, decode, OUTPUT_TF_TYPE,
      List.range_succ, h1, h2, h3] <;>
    norm_num

/-- C5 counterexample: at a concrete round, the measurement component
names returned by `next` are not `quantized_result` and `distortion` (the
first component is named `stochastic_discretization`, as the test's
expected measurement type asserts). -/
theorem measurement_names_counterexample :
    ((next vtScalar testState0 testClientValues []).measurements.map
        Prod.fst) ≠ ["quantized_result", "distortion"] := by
  simp [next]

/-- C5 (amended): for every round, `next` returns measurements as a
structure with exactly the two components `stochastic_discretization`
(holding the inner process's result, of the encoded-value type) and
`distortion` (a scalar real), under those names. -/
theorem measurement_components (vt : ValueType) (st : ServerState)
    (values : List StructValue) (draws : List Draws) :
    ((next vt st values draws).measurements.map Prod.fst)
        = ["stochastic_discretization", "distortion"] ∧
    ∃ q : ℚ, (next vt st values draws).measurements =
      [("stochastic_discretization", MeasurementValue.encoded
          (sumEnc (List.zipWith
            (fun v d => _discretize_struct st.step_size d v) values draws))),
       ("distortion", MeasurementValue.scalar q)] :=
  ⟨by simp [next],
    ⟨meanList (List.zipWith
        (fun v d => clientDistortion st.step_size vt d v) values draws),
      by simp [next]⟩⟩

/-- C8 counterexample: the value type consisting of a single zero-size
32-bit-integer leaf contains a zero-size leaf, yet `create` rejects it
with a type error (non-floating-point leaves are rejected whatever their
shape), so the claim's quantification over every value type containing a
zero-size leaf is too strong. -/
theorem zero_size_counterexample :
    create 1 (.tensor DType.int32 [0]) = .error "TypeError" := by
  simp [create, isValidValueType, DType.isFloat]

/-- The zero-size execution-test value type: a composite of a zero-size
float32 leaf and a two-element float32 leaf. -/
def vtZero : ValueType :=
  .struct [.tensor DType.float32 [0], .tensor DType.float32 [2]]

/-- The first contributor of the zero-size execution test. -/
def zeroClient1 : StructValue :=
  .struct [.tensor DType.float32 [], .tensor DType.float32 [1, 2]]

/-- The second contributor of the zero-size execution test. -/
def zeroClient2 : StructValue :=
  .struct [.tensor DType.float32 [], .tensor DType.float32 [3, 4]]

/-- A value type contains a zero-size leaf: a tensor leaf whose shape has
a zero dimension, at any nesting depth. -/
inductive ContainsZeroSizeLeaf : ValueType → Prop where
  | tensor_zero (d : DType) (sh : List Nat) :
      0 ∈ sh → ContainsZeroSizeLeaf (.tensor d sh)
  | struct_mem (e : ValueType) (es : List ValueType) :
      e ∈ es → ContainsZeroSizeLeaf e → ContainsZeroSizeLeaf (.struct es)

mutual

/-- A structured value conforms to a value type: matching leaf kinds, the
flattened element count of every leaf equal to the product of its shape
(so a zero-size leaf holds the empty list), and matching composite
nesting. -/
def conforms : StructValue → ValueType → Bool
  | .tensor d data, .tensor d2 sh =>
      decide (d = d2) && decide (data.length = sh.prod)
  | .tensor _ _, .struct _ => false
  | .tensor _ _, .sequence _ => false
  | .tensor _ _, .func _ _ => false
  | .struct vs, .struct ts => conformsList vs ts
  | .struct _, .tensor _ _ => false
  | .struct _, .sequence _ => false
  | .struct _, .func _ _ => false

/-- `conforms` zipped over the children of a composite. -/
def conformsList : List StructValue → List ValueType → Bool
  | [], [] => true
  | v :: vs, t :: ts => conforms v t && conformsList vs ts
  | [], _ :: _ => false
  | _ :: _, [] => false

end

mutual

/-- An encoded value conforms to a value type: every leaf carries the
fixed `OUTPUT_TF_TYPE` kind with the element count of the corresponding
leaf shape, and the composite nesting matches. -/
def encConforms : EncValue → ValueType → Bool
  | .tensor d data, .tensor _ sh =>
      decide (d = OUTPUT_TF_TYPE) && decide (data.length = sh.prod)
  | .tensor _ _, .struct _ => false
  | .tensor _ _, .sequence _ => false
  | .tensor _ _, .func _ _ => false
  | .struct es, .struct ts => encConformsList es ts
  | .struct _, .tensor _ _ => false
  | .struct _, .sequence _ => false
  | .struct _, .func _ _ => false

/-- `encConforms` zipped over the children of a composite. -/
def encConformsList : List EncValue → List ValueType → Bool
  | [], [] => true
  | e :: es, t :: ts => encConforms e t && encConformsList es ts
  | [], _ :: _ => false
  | _ :: _, [] => false

end

/-- The elementwise encoding of a leaf preserves its element count. -/
theorem encodeData_length (s : ℚ) (f : Nat → Bool) (data : List ℚ) :
    (encodeData s f data).length = data.length := by
  simp [encodeData]

mutual

/-- Encoding preserves conformance: the encoded value mirrors the value
type with `OUTPUT_TF_TYPE` leaves of unchanged element counts (an empty
leaf stays empty). -/
theorem discretize_conforms :
    ∀ (v : StructValue) (t : ValueType) (s : ℚ) (dr : Draws),
      conforms v t = true → encConforms (_discretize_struct s dr v) t = true
  | .tensor d data, .tensor d2 sh, s, dr, h => by
      simp only [conforms, Bool.and_eq_true, decide_eq_true_eq] at h
      simp [_discretize_struct, encConforms, encodeData_length, h.2]
  | .struct vs, .struct ts, s, dr, h => by
      simp only [conforms] at h
      simp only [_discretize_struct, encConforms]
      exact discretizeList_conforms vs ts s dr 0 h
  | .tensor _ _, .struct _, _, _, h => by simp [conforms] at h
  | .tensor _ _, .sequence _, _, _, h => by simp [conforms] at h
  | .tensor _ _, .func _ _, _, _, h => by simp [conforms] at h
  | .struct _, .tensor _ _, _, _, h => by simp [conforms] at h
  | .struct _, .sequence _, _, _, h => by simp [conforms] at h
  | .struct _, .func _ _, _, _, h => by simp [conforms] at h
termination_by v => sizeOf v

/-- `discretize_conforms` over the children of a composite. -/
theorem discretizeList_conforms :
    ∀ (vs : List StructValue) (ts : List ValueType) (s : ℚ) (dr : Draws)
      (i : Nat), conformsList vs ts = true →
      encConformsList (discretizeList s dr i vs) ts = true
  | [], [], _, _, _, _ => by simp [discretizeList, encConformsList]
  | v :: vs, t :: ts, s, dr, i, h => by
      simp only [conformsList, Bool.and_eq_true] at h
      simp only [discretizeList, encConformsList, Bool.and_eq_true]
      exact ⟨discretize_conforms v t s (fun p k => dr (i :: p) k) h.1,
        discretizeList_conforms vs ts s dr (i + 1) h.2⟩
  | [], _ :: _, _, _, _, h => by simp [conformsList] at h
  | _ :: _, [], _, _, _, h => by simp [conformsList] at h
termination_by vs => sizeOf vs

end

mutual

/-- Decoding an encoded value against its value type yields a conforming
value: original leaf kinds restored, element counts unchanged (an empty
leaf stays empty, of the original kind). -/
theorem undiscretize_conforms :
    ∀ (e : EncValue) (t : ValueType) (s : ℚ),
      encConforms e t = true →
      conforms (_undiscretize_struct s e t) t = true
  | .tensor d data, .tensor d2 sh, s, h => by
      simp only [encConforms, Bool.and_eq_true, decide_eq_true_eq] at h
      simp [_undiscretize_struct, conforms, leafKind, h.2]
  | .struct es, .struct ts, s, h => by
      simp only [encConforms] at h
      simp only [_undiscretize_struct, conforms, childTypes]
      exact undiscretizeList_conforms es ts s h
  | .tensor _ _, .struct _, _, h => by simp [encConforms] at h
  | .tensor _ _, .sequence _, _, h => by simp [encConforms] at h
  | .tensor _ _, .func _ _, _, h => by simp [encConforms] at h
  | .struct _, .tensor _ _, _, h => by simp [encConforms] at h
  | .struct _, .sequence _, _, h => by simp [encConforms] at h
  | .struct _, .func _ _, _, h => by simp [encConforms] at h
termination_by e => sizeOf e

/-- `undiscretize_conforms` over the children of a composite. -/
theorem undiscretizeList_conforms :
    ∀ (es : List EncValue) (ts : List ValueType) (s : ℚ),
      encConformsList es ts = true →
      conformsList (undiscretizeList s es ts) ts = true
  | [], [], _, _ => by simp [undiscretizeList, conformsList]
  | e :: es, t :: ts, s, h => by
      simp only [encConformsList, Bool.and_eq_true] at h
      simp only [undiscretizeList, conformsList, Bool.and_eq_true,
        List.headD, List.tail]
      exact ⟨undiscretize_conforms e t s h.1,
        undiscretizeList_conforms es ts s h.2⟩
  | [], _ :: _, _, h => by simp [encConformsList] at h
  | _ :: _, [], _, h => by simp [encConformsList] at h
termination_by es => sizeOf es

end

mutual

/-- The inner elementwise sum of two conforming encoded values conforms:
leaf kinds and element counts are preserved. -/
theorem addEnc_conforms :
    ∀ (a b : EncValue) (t : ValueType),
      encConforms a t = true → encConforms b t = true →
      encConforms (addEnc a b) t = true
  | .tensor d da, .tensor d2 db, .tensor d3 sh, ha, hb => by
      simp only [encConforms, Bool.and_eq_true, decide_eq_true_eq] at ha hb
      simp [addEnc, encConforms, ha.1, ha.2, hb.2]
  | .struct as, .struct bs, .struct ts, ha, hb => by
      simp only [encConforms] at ha hb
      simp only [addEnc, encConforms]
      exact addEncList_conforms as bs ts ha hb
  | .tensor _ _, .tensor _ _, .struct _, ha, _ => by simp [encConforms] at ha
  | .tensor _ _, .tensor _ _, .sequence _, ha, _ => by
      simp [encConforms] at ha
  | .tensor _ _, .tensor _ _, .func _ _, ha, _ => by simp [encConforms] at ha
  | .tensor _ _, .struct _, t, ha, hb => by
      cases t <;> simp [encConforms] at ha hb
  | .struct _, .tensor _ _, t, ha, hb => by
      cases t <;> simp [encConforms] at ha hb
  | .struct _, .struct _, .tensor _ _, ha, _ => by simp [encConforms] at ha
  | .struct _, .struct _, .sequence _, ha, _ => by simp [encConforms] at ha
  | .struct _, .struct _, .func _ _, ha, _ => by simp [encConforms] at ha
termination_by a => sizeOf a

/-- `addEnc_conforms` over the children of two composites. -/
theorem addEncList_conforms :
    ∀ (as bs : List EncValue) (ts : List ValueType),
      encConformsList as ts = true → encConformsList bs ts = true →
      encConformsList (addEncList as bs) ts = true
  | [], [], [], _, _ => by simp [addEncList, encConformsList]
  | a :: as, b :: bs, t :: ts, ha, hb => by
      simp only [encConformsList, Bool.and_eq_true] at ha hb
      simp only [addEncList, encConformsList, Bool.and_eq_true]
      exact ⟨addEnc_conforms a b t ha.1 hb.1,
        addEncList_conforms as bs ts ha.2 hb.2⟩
  | [], _, _ :: _, ha, _ => by simp [encConformsList] at ha
  | _ :: _, _, [], ha, _ => by simp [encConformsList] at ha
  | _ :: _, [], _ :: _, _, hb => by simp [encConformsList] at hb
  | [], _ :: _, [], _, hb => by simp [encConformsList] at hb
termination_by as => sizeOf as

end

/-- Folding the inner sum over conforming encoded values preserves
conformance. -/
theorem foldl_addEnc_conforms (t : ValueType) (l : List EncValue) :
    ∀ (acc : EncValue), encConforms acc t = true →
      (∀ e ∈ l, encConforms e t = true) →
      encConforms (l.foldl addEnc acc) t = true := by
  induction l with
  | nil => intro acc h _; simpa using h
  | cons e es ih =>
    intro acc hacc hall
    simp only [List.foldl_cons]
    exact ih (addEnc acc e) (addEnc_conforms acc e t hacc (hall e (by simp)))
      (fun x hx => hall x (by simp [hx]))

/-- The inner process's sum of a nonempty list of conforming encoded
values conforms. -/
theorem sumEnc_conforms (t : ValueType) :
    ∀ (l : List EncValue), l ≠ [] →
      (∀ e ∈ l, encConforms e t = true) →
      encConforms (sumEnc l) t = true
  | [], h, _ => absurd rfl h
  | e :: es, _, hall => by
    simp only [sumEnc]
    exact foldl_addEnc_conforms t es e (hall e (by simp))
      (fun x hx => hall x (by simp [hx]))

/-- Every encoded contributor value of a round conforms to the round's
value type when every contributor value does. -/
theorem encoded_all_conform (vt : ValueType) (s : ℚ) :
    ∀ (values : List StructValue) (draws : List Draws),
      (∀ v ∈ values, conforms v vt = true) →
      ∀ e ∈ List.zipWith (fun v d => _discretize_struct s d v) values draws,
        encConforms e vt = true := by
  intro values
  induction values with
  | nil => simp
  | cons v vs ih =>
    intro draws hall e he
    cases draws with
    | nil => simp at he
    | cons d ds =>
      simp only [List.zipWith_cons_cons, List.mem_cons] at he
      rcases he with rfl | he
      · exact discretize_conforms v vt s d (hall v (by simp))
      · exact ih ds (fun x hx => hall x (by simp [hx])) e he

/-- C8 (amended): for every value type whose leaves are all
floating-point (and with no sequence or function components) and that
contains a zero-size leaf, and every step size `s > 0`: `create`
succeeds; encoding any conforming value yields an encoded value
conforming to the type (so the zero-size position holds an empty leaf of
the target kind `OUTPUT_TF_TYPE`); decoding any conforming encoded value
yields a value conforming to the type (the empty leaf of the original
kind at that position); a conforming zero-size leaf is literally empty,
its encode and decode are no-ops producing the empty leaf of the target
kind, and its distortion is well defined (zero); a full `next` round over
any nonempty conforming contributors with matching draws produces a
result conforming to the type; and the zero-size execution-test round
produces the expected empty leaf, sum and zero distortion for every draw
realization. -/
theorem zero_size_leaf_ok (vt : ValueType)
    (hvalid : isValidValueType vt = true)
    (hzero : ContainsZeroSizeLeaf vt)
    (s : ℚ) (hs : 0 < s) (da db : Draws) :
    (∃ p : AggProcess, create s vt = .ok p) ∧
    (∀ (v : StructValue) (dr : Draws), conforms v vt = true →
      encConforms (_discretize_struct s dr v) vt = true) ∧
    (∀ e : EncValue, encConforms e vt = true →
      conforms (_undiscretize_struct s e vt) vt = true) ∧
    (∀ (d : DType) (sh : List Nat) (data : List ℚ) (dr : Draws),
      0 ∈ sh → conforms (.tensor d data) (.tensor d sh) = true →
      data = [] ∧
      _discretize_struct s dr (.tensor d data) = .tensor OUTPUT_TF_TYPE [] ∧
      _undiscretize_struct s (.tensor OUTPUT_TF_TYPE []) (.tensor d sh)
          = .tensor d [] ∧
      meanList (sqDiffs (.tensor d data) (.tensor d data)) = 0) ∧
    (∀ (st : ServerState) (values : List StructValue) (draws : List Draws),
      values ≠ [] → values.length = draws.length →
      (∀ v ∈ values, conforms v vt = true) →
      conforms (next vt st values draws).result vt = true) ∧
    (next vtZero (initState (1/8)) [zeroClient1, zeroClient2]
        [da, db]).result =
      .struct [.tensor DType.float32 [], .tensor DType.float32 [4, 6]] ∧
    (next vtZero (initState (1/8)) [zeroClient1, zeroClient2]
        [da, db]).measurements =
      [("stochastic_discretization", MeasurementValue.encoded
          (.struct [.tensor DType.int32 [], .tensor DType.int32 [32, 48]])),
       ("distortion", MeasurementValue.scalar 0)] := by
  have h1 : ∀ d : Bool, encode (8 : ℚ)⁻¹ 1 d = 8 :=
    fun d => encode_exact (8 : ℚ)⁻¹ 1 8 (by norm_num) d
  have h2 : ∀ d : Bool, encode (8 : ℚ)⁻¹ 2 d = 16 :=
    fun d => encode_exact (8 : ℚ)⁻¹ 2 16 (by norm_num) d
  have h3 : ∀ d : Bool, encode (8 : ℚ)⁻¹ 3 d = 24 :=
    fun d => encode_exact (8 : ℚ)⁻¹ 3 24 (by norm_num) d
  have h4 : ∀ d : Bool, encode (8 : ℚ)⁻¹ 4 d = 32 :=
    fun d => encode_exact (8 : ℚ)⁻¹ 4 32 (by norm_num) d
  refine ⟨⟨{ value_type := vt, encoded_type := quantizeType vt,
             step_size := s },
           by simp [create, hvalid, hs]⟩,
    fun v dr h => discretize_conforms v vt s dr h,
    fun e h => undiscretize_conforms e vt s h,
    ?_, ?_, ?_, ?_⟩
  · intro d sh data dr h0 hconf
    have hprod : sh.prod = 0 := List.prod_eq_zero h0
    simp only [conforms, Bool.and_eq_true, decide_eq_true_eq] at hconf
    have hdata : data = [] := List.length_eq_zero.mp (by rw [hconf.2, hprod])
    subst hdata
    refine ⟨rfl, ?_, ?_, ?_⟩
    · simp [_discretize_struct, encodeData]
    · simp [_undiscretize_struct, leafKind]
    · simp [sqDiffs, meanList]
  · intro st values draws hne hlen hall
    have hconf : ∀ e ∈ List.zipWith
        (fun v d => _discretize_struct st.step_size d v) values draws,
        encConforms e vt = true :=
      encoded_all_conform vt st.step_size values draws hall
    have hnemp : List.zipWith
        (fun v d => _discretize_struct st.step_size d v) values draws
          ≠ [] := by
      cases values with
      | nil => exact absurd rfl hne
      | cons v vs =>
        cases draws with
        | nil => simp at hlen
        | cons d ds => simp
    have hsum := sumEnc_conforms vt _ hnemp hconf
    have hres := undiscretize_conforms _ vt st.step_size hsum
    simpa [next] using hres
  all_goals
    simp [next, vtZero, zeroClient1, zeroClient2, initState,
      _discretize_struct, discretizeList, encodeData, _undiscretize_struct,
      undiscretizeList, sumEnc, addEnc, addEncList, sqDiffs, sqDiffsList,
      meanList, leafKind, childTypes, clientDistortion, decode,
      OUTPUT_TF_TYPE, List.range_succ, h1, h2, h3, h4] <;>
    norm_num

/-- Witness for the amended C8 at the zero-size execution-test value type
`vtZero` (a composite containing the zero-size float32 leaf), step size
`1/8` and the all-down draws. -/
theorem zero_size_leaf_ok_witness :
    isValidValueType vtZero = true ∧ (0 : ℚ) < 1/8 ∧
    (∃ p : AggProcess, create (1/8) vtZero = .ok p) ∧
    (next vtZero (initState (1/8)) [zeroClient1, zeroClient2]
        [fun _ _ => false, fun _ _ => false]).result =
      .struct [.tensor DType.float32 [], .tensor DType.float32 [4, 6]] :=
  ⟨by simp [vtZero, isValidValueType, allValidList, DType.isFloat],
   by norm_num,
   (zero_size_leaf_ok vtZero
      (by simp [vtZero, isValidValueType, allValidList, DType.isFloat])
      (ContainsZeroSizeLeaf.struct_mem (ValueType.tensor DType.float32 [0])
        [ValueType.tensor DType.float32 [0],
         ValueType.tensor DType.float32 [2]]
        (List.mem_cons_self _ _)
        (ContainsZeroSizeLeaf.tensor_zero DType.float32 [0] (by simp)))
      (1/8) (by norm_num) (fun _ _ => false) (fun _ _ => false)).1,
   (zero_size_leaf_ok vtZero
      (by simp [vtZero, isValidValueType, allValidList, DType.isFloat])
      (ContainsZeroSizeLeaf.struct_mem (ValueType.tensor DType.float32 [0])
        [ValueType.tensor DType.float32 [0],
         ValueType.tensor DType.float32 [2]]
        (List.mem_cons_self _ _)
        (ContainsZeroSizeLeaf.tensor_zero DType.float32 [0] (by simp)))
      (1/8) (by norm_num) (fun _ _ => false)
      (fun _ _ => false)).2.2.2.2.2.1⟩

/-- C9 counterexample: in the embedded execution-test loop, the state
supplied to the second `next` call (index 1) is `state0` itself — the
initial state is reused past the first call, contradicting the claim that
`state0` is never supplied to `next` again. -/
theorem state_threading_counterexample :
    ((testRun testDrawsConst 3 testState0).map Prod.fst).get? 1
      = some testState0 := by
  simp [testRun]

/-- C9 (amended): the execution test supplies `state0` to all three
successive `next` calls (the loop never rebinds `state`); because `next`
here returns a state equal to its input (the step size and the unit inner
state are preserved), the supplied state of call `n+1` is still equal, as
a value, to the state returned by call `n`, so value-level threading
holds even though `state0` is reused. -/
theorem state_threading_amended (ds : Nat → List Draws) (k : Nat)
    (hk : k + 1 < 3) :
    ((testRun ds 3 testState0).map Prod.fst).get? (k + 1)
        = some testState0 ∧
    ((testRun ds 3 testState0).map Prod.fst).get? (k + 1)
        = ((testRun ds 3 testState0).get? k).map (fun p => p.2.state) := by
  have hk2 : k = 0 ∨ k = 1 := by omega
  rcases hk2 with rfl | rfl <;> simp [testRun, next, testState0, initState]

/-- Witness for the amended C9 at `k = 0` with the all-down draws. -/
theorem state_threading_amended_witness :
    0 + 1 < 3 ∧
    (((testRun testDrawsConst 3 testState0).map Prod.fst).get? (0 + 1)
        = some testState0 ∧
     ((testRun testDrawsConst 3 testState0).map Prod.fst).get? (0 + 1)
        = ((testRun testDrawsConst 3 testState0).get? 0).map
            (fun p => p.2.state)) :=
  ⟨by norm_num, state_threading_amended testDrawsConst 0 (by norm_num)⟩

/-- The element kind of an encoded leaf. -/
def encLeafKind : EncValue → Option DType
  | .tensor d _ => some d
  | .struct _ => none

/-- C10: for every supported floating-point input leaf kind (float16,
float32 and float64 — exactly the kinds with `isFloat = true`), the
encoder produces leaves whose element kind is exactly the fixed 32-bit
signed integer kind `OUTPUT_TF_TYPE`, regardless of the input's
floating-point width, and the derived encoded type re-types the leaf to
int32. -/
theorem output_dtype (d : DType) (hd : d.isFloat = true) (s : ℚ)
    (data : List ℚ) (dr : Draws) (sh : List Nat) :
    encLeafKind (_discretize_struct s dr (.tensor d data))
        = some OUTPUT_TF_TYPE ∧
    OUTPUT_TF_TYPE = DType.int32 ∧
    quantizeType (.tensor d sh) = .tensor DType.int32 sh :=
  ⟨by simp [_discretize_struct, encLeafKind], rfl, by simp [quantizeType]⟩

/-- Witness for C10 at the float16 leaf `[1, 2]`. -/
theorem output_dtype_witness :
    DType.isFloat .float16 = true ∧
    encLeafKind (_discretize_struct 1 (fun _ _ => false)
        (.tensor DType.float16 [1, 2])) = some OUTPUT_TF_TYPE :=
  ⟨rfl, (output_dtype DType.float16 rfl 1 [1, 2] (fun _ _ => false) []).1⟩

end StochasticDiscretization
